import Mathlib

/-!
Shallow embedding of the core of `fubarhouse/covid-check` (Go): the row
classifier `fieldTranslate` and the query engine (`check`, `checkNot`,
`Query`, `AddRaw`, `AddFiltered`) of the variant in `src/unnamed/part_002`
(the program matching the repository's README flags `-q`/`-qn`/`-generate`
and `main_test.go`'s `generateData`); `src/main.go` differs only in minor
details noted at the relevant definitions.

Machine strings are Lean `String`s processed as `List Char`; Go's
`time.Time` is modelled by `GoTime` (year, month, day, hour, minute —
seconds, nanoseconds and the time zone are dropped: no code path under
verification reads them).  `time.Now()` is an explicit `now` parameter.
A Go runtime panic (index out of range, nil dereference) is modelled as
`none` in an `Option` result.
-/

namespace CovidCheck

/-- Go `strings.Split(s, sep)` for a one-character separator, on char lists.
All separators used by the program (`","`, `"\""`, `" "`) are single
characters.  Always returns a non-empty list. -/
def splitCh (sep : Char) : List Char → List (List Char)
  | [] => [[]]
  | c :: cs =>
    let r := splitCh sep cs
    if c = sep then [] :: r
    else
      match r with
      | h :: t => (c :: h) :: t
      | [] => [[c]]

/-- Go `strings.Split` wrapped for `String`. -/
def goSplit (sep : Char) (s : String) : List String :=
  (splitCh sep s.data).map String.mk

/-- Go `strings.Contains(hay, needle)`: `needle` occurs as a contiguous
substring of `hay` (true for the empty needle). -/
def listContains (hay needle : List Char) : Bool :=
  match hay with
  | [] => needle.isEmpty
  | _ :: t => needle.isPrefixOf hay || listContains t needle

/-- Go `strings.Contains` on `String`s. -/
def goContains (hay needle : String) : Bool :=
  listContains hay.data needle.data

/-- Go `strings.Trim(s, " ")`: strip leading and trailing spaces. -/
def trimSpaces (s : String) : String :=
  String.mk ((((s.data.dropWhile (· = ' ')).reverse.dropWhile (· = ' ')).reverse))

/-- Go `strings.ToLower` (ASCII letters; the data processed by the tool is
ASCII, so the Unicode cases Go would additionally fold are not modelled). -/
def goToLower (s : String) : String :=
  String.mk (s.data.map Char.toLower)

/-- One pass of Go `strings.Replace(s, old, new, -1)` for a two-character
pattern: scan left to right, replacing every non-overlapping occurrence. -/
def replacePair (p1 p2 r1 r2 : Char) : List Char → List Char
  | [] => []
  | [c] => [c]
  | a :: b :: rest =>
    if a = p1 ∧ b = p2 then r1 :: r2 :: replacePair p1 p2 r1 r2 rest
    else a :: replacePair p1 p2 r1 r2 (b :: rest)

/-- The `strings.Replace(s, "am", "AM", -1)` then
`strings.Replace(s, "pm", "PM", -1)` sequence from the time rule of
`fieldTranslate`. -/
def replaceAmPm (s : String) : String :=
  String.mk (replacePair 'p' 'm' 'P' 'M' (replacePair 'a' 'm' 'A' 'M' s.data))

/-- Go `trimQuotes` (src/unnamed/part_002 lines 641-646): if the input
contains a double quote, return `strings.Split(in, "\"")[1]` trimmed of
spaces, else the input unchanged.  When a quote is present the split has at
least two elements, so the Go index `[1]` cannot fault. -/
def trimQuotes (s : String) : String :=
  if s.data.contains '"' then
    trimSpaces (String.mk ((splitCh '"' s.data).getD 1 []))
  else s

/-- Model of Go `time.Time` restricted to the components the program reads:
year, month, day (for `Date`) and hour, minute (for the Kitchen-format
times).  Seconds, fractional seconds and the zone are never consulted. -/
structure GoTime where
  year : Nat
  month : Nat
  day : Nat
  hour : Nat
  minute : Nat
deriving DecidableEq, Repr

/-- The zero Go `time.Time` (`time.Time{}`): January 1, year 1, midnight. -/
def zeroTime : GoTime := ⟨1, 1, 1, 0, 0⟩

/-- Decimal rendering of a `Nat`, zero-padded on the left to `w` digits
(Go `%0wd` for the values in range). -/
def padNat (w n : Nat) : String :=
  let s := toString n
  String.mk (List.replicate (w - s.data.length) '0' ++ s.data)

/-- Go's `time.Time.String()` rendering restricted to the modelled
components: `"YYYY-MM-DD HH:MM:SS +0000 UTC"` with seconds always zero.
(Records parsed by the program are UTC; for the `time.Now()` fallback the
real zone may differ, but no claim inspects that rendering.) -/
def goTimeString (t : GoTime) : String :=
  padNat 4 t.year ++ "-" ++ padNat 2 t.month ++ "-" ++ padNat 2 t.day ++ " " ++
    padNat 2 t.hour ++ ":" ++ padNat 2 t.minute ++ ":00 +0000 UTC"

/-- The `fmt.Sprintf("%d-%d-%d", t.Day(), t.Month(), t.Year())` rendering
used by `Query` for date comparison: unpadded day-month-year. -/
def dmyString (t : GoTime) : String :=
  toString t.day ++ "-" ++ toString t.month ++ "-" ++ toString t.year

/-- Numeric value of a run of decimal digits. -/
def digitsVal (l : List Char) : Nat :=
  l.foldl (fun n c => n * 10 + (c.toNat - '0'.toNat)) 0

/-- Go's `getnum` for a non-zero-padded layout element (`"2"`, `"1"`, `"3"`):
consume one digit, or two when the second character is also a digit. -/
def num2flex : List Char → Option (Nat × List Char)
  | c1 :: c2 :: rest =>
    if c1.isDigit then
      if c2.isDigit then some (digitsVal [c1, c2], rest)
      else some (digitsVal [c1], c2 :: rest)
    else none
  | [c1] => if c1.isDigit then some (digitsVal [c1], []) else none
  | [] => none

/-- Go's `getnum` for the zero-padded layout element `"04"`: exactly two
digits. -/
def num2fixed : List Char → Option (Nat × List Char)
  | c1 :: c2 :: rest =>
    if c1.isDigit ∧ c2.isDigit then some (digitsVal [c1, c2], rest) else none
  | _ => none

/-- Go's year parsing for the layout element `"2006"`: exactly four digits. -/
def num4fixed : List Char → Option (Nat × List Char)
  | c1 :: c2 :: c3 :: c4 :: rest =>
    if c1.isDigit ∧ c2.isDigit ∧ c3.isDigit ∧ c4.isDigit then
      some (digitsVal [c1, c2, c3, c4], rest)
    else none
  | _ => none

/-- Whether `y` is a leap year (Gregorian rule, as in Go's `time`). -/
def isLeap (y : Nat) : Bool := y % 4 = 0 ∧ (y % 100 ≠ 0 ∨ y % 400 = 0)

/-- Number of days in month `m` of year `y` (Go `time` validation). -/
def daysIn (m y : Nat) : Nat :=
  if m = 2 then (if isLeap y then 29 else 28)
  else if m = 4 ∨ m = 6 ∨ m = 9 ∨ m = 11 then 30
  else 31

/-- Go `time.Parse("2/1/2006", s)` reduced to the day/month/year numbers:
day (1-2 digits), `/`, month (1-2 digits), `/`, year (exactly 4 digits),
end of input, with Go's range validation of month and day. -/
def dmyNums (l : List Char) : Option (Nat × Nat × Nat) :=
  match num2flex l with
  | none => none
  | some (d, l1) =>
    match l1 with
    | '/' :: l2 =>
      match num2flex l2 with
      | none => none
      | some (m, l3) =>
        match l3 with
        | '/' :: l4 =>
          match num4fixed l4 with
          | some (y, []) =>
            if 1 ≤ m ∧ m ≤ 12 ∧ 1 ≤ d ∧ d ≤ daysIn m y then some (d, m, y)
            else none
          | _ => none
        | _ => none
    | _ => none

/-- Go `time.Parse("2/1/2006", s)`: on success the missing clock fields
default to zero and the missing era to January 1, so the result carries the
parsed day/month/year and a midnight clock. -/
def parseDMY (s : String) : Option GoTime :=
  (dmyNums s.data).map (fun dmy => ⟨dmy.2.2, dmy.2.1, dmy.1, 0, 0⟩)

/-- Go `time.Parse(time.Kitchen, s)` (layout `"3:04PM"`) reduced to the
hour/minute pair: hour (1-2 digits, at most 12), `:`, minute (exactly two
digits, at most 59), then exactly `"PM"` or `"AM"`, with the 12-hour to
24-hour conversion Go applies. -/
def kitchenHM (l : List Char) : Option (Nat × Nat) :=
  match num2flex l with
  | none => none
  | some (h, l1) =>
    match l1 with
    | ':' :: l2 =>
      match num2fixed l2 with
      | none => none
      | some (m, l3) =>
        if h ≤ 12 ∧ m ≤ 59 then
          match l3 with
          | ['P', 'M'] => some ((if h < 12 then h + 12 else h), m)
          | ['A', 'M'] => some ((if h = 12 then 0 else h), m)
          | _ => none
        else none
    | _ => none

/-- Go `time.Parse(time.Kitchen, s)`: a time parsed from a clock-only layout
lands on January 1 of year 0 (NOT the zero `time.Time`, which is year 1). -/
def parseKitchen (s : String) : Option GoTime :=
  (kitchenHM s.data).map (fun hm => ⟨0, 1, 1, hm.1, hm.2⟩)

/-- Does `p` hold of some suffix of the list? (Used to implement unanchored
regex containment.) -/
def anySuffix (p : List Char → Bool) : List Char → Bool
  | [] => p []
  | c :: t => p (c :: t) || anySuffix p t

/-- A match of `[0-9]+\/[0-9]+\/[0-9][0-9]` at the head of the list. -/
def dateCoreAt (l : List Char) : Bool :=
  let s1 := l.span Char.isDigit
  if s1.1.isEmpty then false
  else
    match s1.2 with
    | '/' :: l2 =>
      let s2 := l2.span Char.isDigit
      if s2.1.isEmpty then false
      else
        match s2.2 with
        | '/' :: c1 :: c2 :: _ => c1.isDigit && c2.isDigit
        | _ => false
    | _ => false

/-- The date-discovery regex of src/unnamed/part_002 line 934,
`^.*[0-9]+\/[0-9]+\/[0-9][0-9]+.*$`: the string contains a
digits/slash/digits/slash/two-digits core.  (For a string containing a
newline RE2's dot would also constrain the surroundings, but in that case
the subsequent strict `time.Parse` fails anyway, so the classifier's
behaviour is unchanged.) -/
def dateShape (s : String) : Bool := anySuffix dateCoreAt s.data

/-- The status regex `^(New||Updated||Archived)$` (src/unnamed/part_002
line 950).  The doubled `||` inserts an empty alternative, so the empty
string also matches. -/
def statusPat (s : String) : Bool :=
  s = "New" ∨ s = "Updated" ∨ s = "Archived" ∨ s = ""

/-- The contact regex `^(Close||Casual||Monitor)$` (line 964), empty
alternative included. -/
def contactPat (s : String) : Bool :=
  s = "Close" ∨ s = "Casual" ∨ s = "Monitor" ∨ s = ""

/-- The state regex `^(ACT||NSW||VIC||TAS||SA||WA||NT||QLD)$` (line 977),
empty alternative included. -/
def statePat (s : String) : Bool :=
  s = "ACT" ∨ s = "NSW" ∨ s = "VIC" ∨ s = "TAS" ∨ s = "SA" ∨ s = "WA" ∨
    s = "NT" ∨ s = "QLD" ∨ s = ""

/-- The suburb regex `^[A-Z][a-z]+$` (line 990): one ASCII uppercase letter
followed by one or more ASCII lowercase letters. -/
def suburbPat (s : String) : Bool :=
  match s.data with
  | c :: rest => c.isUpper && !rest.isEmpty && rest.all Char.isLower
  | [] => false

/-- The time regex `^[0-9]+(:)[0-9]+(am||pm||AM||PM)$` (line 1006): digits,
colon, digits, then `am`/`pm`/`AM`/`PM` or (empty alternative) nothing.
(src/main.go line 438 has only the lowercase alternatives; the claims under
verification exercise lowercase tokens, where the two agree.) -/
def timePat (s : String) : Bool :=
  let s1 := s.data.span Char.isDigit
  if s1.1.isEmpty then false
  else
    match s1.2 with
    | ':' :: l2 =>
      let s2 := l2.span Char.isDigit
      !s2.1.isEmpty &&
        (s2.2 = [] ∨ s2.2 = ['a', 'm'] ∨ s2.2 = ['p', 'm'] ∨
          s2.2 = ['A', 'M'] ∨ s2.2 = ['P', 'M'])
    | _ => false

/-- The location regex `^([A-Z]||[0-9]).*[a-z].*$` (line 1031).  Because of
the empty alternative the leading class is optional, so the regex accepts
exactly the newline-free strings containing an ASCII lowercase letter. -/
def locPat (s : String) : Bool :=
  s.data.all (· ≠ '\n') && s.data.any Char.isLower

/-- A match of `[0-9-\/]+\ [A-Z][a-z].*` against the whole list. -/
def streetNumbered (l : List Char) : Bool :=
  let s1 := l.span (fun c => c.isDigit || c = '-' || c = '/')
  if s1.1.isEmpty then false
  else
    match s1.2 with
    | ' ' :: c1 :: c2 :: rest => c1.isUpper && c2.isLower && rest.all (· ≠ '\n')
    | _ => false

/-- A match of `[A-Z][a-z].*` against the whole list. -/
def streetTitled : List Char → Bool
  | c1 :: c2 :: rest => c1.isUpper && c2.isLower && rest.all (· ≠ '\n')
  | _ => false

/-- The street regex `^([0-9-\/]+\ [A-Z][a-z].*||[A-Z][a-z].*)$`
(line 1043): a numbered street, a bare title-cased phrase, or (empty
alternative) the empty string. -/
def streetPat (s : String) : Bool :=
  s.data.isEmpty || streetNumbered s.data || streetTitled s.data

/-- The `Entry` struct of src/unnamed/part_002 (lines 562-585): one
classified row.  The three `*time.Time` pointers are `Option GoTime`
(`none` = nil). -/
structure Entry where
  Status : String
  ExposureLocation : String
  Street : String
  Suburb : String
  State : String
  Date : Option GoTime
  ArrivalTime : Option GoTime
  DepartureTime : Option GoTime
  Contact : String
deriving DecidableEq, Repr

/-- The zero-valued `Entry{}`: empty strings and nil pointers. -/
def emptyEntry : Entry := ⟨"", "", "", "", "", none, none, none, ""⟩

/-- How `fmt`'s `%v` renders a `*time.Time` field: `<nil>` for a nil
pointer, otherwise the pointed-to time's `String()`. -/
def sprintTimePtr : Option GoTime → String
  | none => "<nil>"
  | some t => goTimeString t

/-- `fmt.Sprint` of an `Entry` value: the fields, space-separated, inside
braces.  Used both for the free-text queries (`fmt.Sprint(dataEntry)`) and
for the repeated-filter guard (`fmt.Sprint(*e)`). -/
def sprintEntry (r : Entry) : String :=
  "\x7b" ++ r.Status ++ " " ++ r.ExposureLocation ++ " " ++ r.Street ++ " " ++
    r.Suburb ++ " " ++ r.State ++ " " ++ sprintTimePtr r.Date ++ " " ++
    sprintTimePtr r.ArrivalTime ++ " " ++ sprintTimePtr r.DepartureTime ++
    " " ++ r.Contact ++ "\x7d"

/-- The classifier's per-line mutable locals other than `date`
(src/unnamed/part_002 lines 922-929).  The loop body is literally "date
rule, then the cascade of the remaining rules", and no cascade rule reads
`date`, so the embedding threads `date` alongside this record as a pair. -/
structure TState where
  status : String
  contact : String
  state : String
  timeStart : GoTime
  timeEnd : GoTime
  suburb : String
  street : String
  location : String
deriving DecidableEq, Repr

/-- The date-discovery rule (lines 931-944), the first rule of the loop
body, applied to every token before any `continue` can fire: take the first
space-separated word of the quote-trimmed token and, when it has a
date-shaped core and parses under `"2/1/2006"`, overwrite the date
(last match wins). -/
def dateUpd (tok : String) (d : GoTime) : GoTime :=
  let datestring := String.mk ((splitCh ' ' (trimQuotes tok).data).getD 0 [])
  if dateShape datestring then
    match parseDMY (trimSpaces datestring) with
    | some t => t
    | none => d
  else d

/-- The location rule (lines 1030-1040) followed by the street rule (lines
1042-1052); in this variant neither rule `continue`s, so both always run on
a token that reaches them. -/
def locStreet (fd : String) (st : TState) : TState :=
  let st1 := if locPat fd ∧ st.location = "" then {st with location := fd} else st
  if streetPat fd ∧ st1.street = "" then {st1 with street := fd} else st1

/-- The pattern cascade of the token loop after the date rule (lines
946-1052).  The status/contact/state/suburb rules `continue` (stop
processing the token) when they claim a field; a rule whose regex matches
but whose field is already set falls through to the next rule.  The time
rule reads the NEXT raw token `components[i+1]` — with no bounds check, so
a final time-shaped token is a runtime panic (`none`).  It also rewrites
`fieldData` (`am`→`AM`, `pm`→`PM`) in place, which is what the location and
street rules then see. -/
def cascade (comps : List String) (i : Nat) (tok : String) (st : TState) :
    Option TState :=
  let fd := trimQuotes tok
  if statusPat fd ∧ st.status = "" then some {st with status := fd}
  else if contactPat fd ∧ st.contact = "" then some {st with contact := fd}
  else if statePat fd ∧ st.state = "" then some {st with state := fd}
  else if suburbPat fd ∧ st.suburb = "" then some {st with suburb := fd}
  else if ¬ suburbPat fd ∧ fd = "Public Transport" then some {st with suburb := fd}
  else if timePat fd then
    match comps.get? (i + 1) with
    | none => none
    | some adj =>
      let fd2 := replaceAmPm fd
      let adj2 := replaceAmPm (trimQuotes adj)
      let st2 :=
        match parseKitchen fd2, parseKitchen adj2 with
        | some t1, some t2 => {st with timeStart := t1, timeEnd := t2}
        | _, _ => st
      some (locStreet fd2 st2)
  else some (locStreet fd st)

/-- The token loop of `fieldTranslate`, walking the component list with its
index (the full list is retained for the time rule's `components[i+1]`).
Each iteration applies the date rule to the date component and the cascade
to the rest, in source order. -/
def transLoop (comps : List String) :
    List String → Nat → GoTime × TState → Option (GoTime × TState)
  | [], _, p => some p
  | tok :: rest, i, p =>
    match cascade comps i tok p.2 with
    | none => none
    | some st1 => transLoop comps rest (i + 1) (dateUpd tok p.1, st1)

/-- `fieldTranslate` (src/unnamed/part_002 lines 907-1068; src/main.go lines
374-487 differs only in the date rule's input — there the raw token is
matched against a stricter `DD/MM/YYYY` regex — am/pm casing, and two
`continue`s): split the line on commas; fewer than 9 components yields the
zero `Entry`; otherwise run the token loop from `time.Now()` (the `now`
parameter) and package the locals.  `none` models the loop's runtime
panic. -/
def fieldTranslate (line : String) (now : GoTime) : Option Entry :=
  let components := goSplit ',' line
  if components.length < 9 then some emptyEntry
  else
    match transLoop components components 0
        (now, ⟨"", "", "", zeroTime, zeroTime, "", "", ""⟩) with
    | none => none
    | some p =>
      some ⟨p.2.status, p.2.location, p.2.street, p.2.suburb, p.2.state,
        some p.1, some p.2.timeStart, some p.2.timeEnd, p.2.contact⟩

/-- Token of the modelled regex fragment: a literal character or the `.`
wildcard. -/
inductive RTok where
  | dot : RTok
  | lit : Char → RTok
deriving DecidableEq, Repr

/-- Read a pattern string as a sequence of regex tokens: `.` becomes the
wildcard, every other character a literal.  This is faithful to Go's
`regexp.Match` ONLY on patterns whose sole metacharacter is `.`; a pattern
using any other RE2 metacharacter (quantifiers, classes, alternation,
anchors, escapes) is NOT modelled — general theorems about free-text
queries therefore restrict themselves to `metaFree` patterns, on which RE2
matching provably coincides with substring containment. -/
def parsePat (p : List Char) : List RTok :=
  p.map (fun c => if c = '.' then RTok.dot else RTok.lit c)

/-- Match a token sequence against a prefix of the subject (RE2 `.` matches
any character except newline). -/
def matchHere : List RTok → List Char → Bool
  | [], _ => true
  | _ :: _, [] => false
  | RTok.dot :: ts, c :: cs => c ≠ '\n' && matchHere ts cs
  | RTok.lit a :: ts, c :: cs => a = c && matchHere ts cs

/-- Unanchored search: does the token sequence match at some position? -/
def reSearch (ts : List RTok) : List Char → Bool
  | [] => matchHere ts []
  | c :: cs => matchHere ts (c :: cs) || reSearch ts cs

/-- Go `regexp.Match(pattern, subject)` on the literal-and-dot fragment
(see `parsePat` for the modelling boundary). -/
def goRegexMatch (pattern s : String) : Bool :=
  reSearch (parsePat pattern.data) s.data

/-- The RE2 metacharacters (special outside character classes).  A pattern
built only of other characters is a plain literal to Go's regexp engine. -/
def isMetaChar (c : Char) : Bool :=
  c = '.' ∨ c = '(' ∨ c = ')' ∨ c = '[' ∨ c = ']' ∨ c = '\x7b' ∨ c = '\x7d' ∨
    c = '*' ∨ c = '+' ∨ c = '?' ∨ c = '|' ∨ c = '^' ∨ c = '$' ∨ c = '\\'

/-- A query string free of every RE2 metacharacter.  For such a pattern Go's
`regexp.Match` is exactly case-respecting substring containment, which is
also what `goRegexMatch` computes (`goRegexMatch_contains`), so on this
domain the embedding of `check`/`checkNot` is faithful for arbitrary
user-supplied free-text queries. -/
def metaFree (q : String) : Bool := q.data.all (fun c => !isMetaChar c)

/-- The `found` flag computed by `check` (src/unnamed/part_002 lines
716-745) for a string filter value `a` against a record value `b`:
case-insensitive substring containment, OR regex match of lowered `a`
against lowered `b`, OR the explicit `"nil"`-matches-empty convention. -/
def checkB (a b : String) : Bool :=
  let la := goToLower a
  let lb := goToLower b
  goContains lb la || goRegexMatch la lb || (la = "nil" ∧ lb = "")

/-- The `found` flag computed by `checkNot` (lines 750-779): it starts
`true` and is cleared when containment fails, when the regex match fails,
or when the `"nil"`-matches-empty convention applies — so it is the
CONJUNCTION of containment and regex match (and not the nil case), unlike
`check`'s disjunction.  `checkNot` appends `!found` to the trace and
returns `found`. -/
def checkNotFound (a b : String) : Bool :=
  let la := goToLower a
  let lb := goToLower b
  goContains lb la && goRegexMatch la lb && !(la = "nil" ∧ lb = "")

/-- Append one evaluated predicate to the `(mq, match)` state as `check`
and `Query` do: `check` pushes `found` onto `mq.Items`, and the caller runs
`if b { match = true }` (no else branch). -/
def pushCheck (st : List Bool × Bool) (found : Bool) : List Bool × Bool :=
  (st.1 ++ [found], if found then true else st.2)

/-- One record's evaluation inside `Query` (src/unnamed/part_002 lines
789-868): the per-field checks in source order, the date normalization, the
unhandled `*time.Time` arrival/departure comparisons (which push `false`),
the positive and negative free-text query loops, and the final sweep that
clears `match` on any `false` in the trace.  `none` models the nil-pointer
panic when a date filter is set but the record's date pointer is nil — Go
computes the record-side string `dateTwo` (dereferencing the record's date)
before the inner `dateOne` test, so the dereference happens whenever the
outer guard passes. -/
def evalEntry (e : Entry) (pos neg : List String) (r : Entry) : Option Bool :=
  let st0 : List Bool × Bool := ([], true)
  let st1 := if e.Status ≠ "" then pushCheck st0 (checkB e.Status r.Status) else st0
  let st2 := if e.ExposureLocation ≠ "" then
      pushCheck st1 (checkB e.ExposureLocation r.ExposureLocation) else st1
  let st3 := if e.Street ≠ "" then pushCheck st2 (checkB e.Street r.Street) else st2
  let st4 := if e.Suburb ≠ "" then pushCheck st3 (checkB e.Suburb r.Suburb) else st3
  let st5 := if e.State ≠ "" then pushCheck st4 (checkB e.State r.State) else st4
  let dateStep : Option (List Bool × Bool) :=
    match e.Date with
    | none => some st5
    | some fd =>
      if goTimeString fd ≠ "1-1-1" then
        match r.Date with
        | none => none
        | some rd =>
          let dateOne := dmyString fd
          if dateOne ≠ "1-1-1" then
            some (pushCheck st5 (checkB dateOne (dmyString rd)))
          else some st5
      else some st5
  match dateStep with
  | none => none
  | some st6 =>
    let st7 := if e.ArrivalTime.isSome then (st6.1 ++ [false], st6.2) else st6
    let st8 := if e.DepartureTime.isSome then (st7.1 ++ [false], st7.2) else st7
    let st9 := if e.Contact ≠ "" then pushCheck st8 (checkB e.Contact r.Contact) else st8
    let stP := pos.foldl
      (fun acc q => (acc.1 ++ [checkB q (sprintEntry r)], checkB q (sprintEntry r))) st9
    let stN := neg.foldl
      (fun acc q => (acc.1 ++ [!checkNotFound q (sprintEntry r)],
        !checkNotFound q (sprintEntry r))) stP
    some (stN.1.foldl (fun m v => if v then m else false) stN.2)

/-- The engine state: the unfiltered collection, the filtered collection and
the last applied filter (fields of the `x` struct used by the core). -/
structure EngineX where
  RawResults : List Entry
  FilteredResults : List Entry
  Filter : Entry
deriving DecidableEq, Repr

/-- A freshly constructed engine (`covid := &x{}`). -/
def initEngine : EngineX := ⟨[], [], emptyEntry⟩

/-- `AddRaw` (src/main.go lines 517-522): drop the entry when its suburb is
empty, else append it to the unfiltered collection. -/
def AddRaw (en : Entry) (s : EngineX) : EngineX :=
  if en.Suburb = "" then s
  else {s with RawResults := s.RawResults ++ [en]}

/-- `AddFiltered` (src/main.go lines 508-513): drop the entry when its
suburb is empty, else append it to the filtered collection. -/
def AddFiltered (en : Entry) (s : EngineX) : EngineX :=
  if en.Suburb = "" then s
  else {s with FilteredResults := s.FilteredResults ++ [en]}

/-- The record loop of `Query`: evaluate each raw record, retaining the
matches in order when not in raw-CSV print mode (in print mode matches are
written to stdout and the collection stays empty).  `none` propagates a
per-record panic: the Go process dies before any final state exists. -/
def queryLoop (e : Entry) (pos neg : List String) (printRaw : Bool) :
    List Entry → Option (List Entry)
  | [] => some []
  | r :: rs =>
    match evalEntry e pos neg r, queryLoop e pos neg printRaw rs with
    | some b, some rest => some (if b && !printRaw then r :: rest else rest)
    | _, _ => none

/-- `Query` (src/unnamed/part_002 lines 783-879): when the incoming filter's
`fmt.Sprint` equals that of the last applied filter, return at once leaving
the state untouched (the no-op guard); otherwise store the filter, clear the
filtered collection and rebuild it from the raw collection. -/
def Query (e : Entry) (pos neg : List String) (printRaw : Bool)
    (s : EngineX) : Option EngineX :=
  if sprintEntry e = sprintEntry s.Filter then some s
  else
    match queryLoop e pos neg printRaw s.RawResults with
    | none => none
    | some l => some ⟨s.RawResults, l, e⟩

/-- One engine operation, for stating state invariants over arbitrary
operation sequences. -/
inductive Op where
  | addRaw : Entry → Op
  | addFiltered : Entry → Op
  | query : Entry → List String → List String → Bool → Op

/-- Apply one operation. -/
def applyOp (s : EngineX) : Op → Option EngineX
  | Op.addRaw en => some (AddRaw en s)
  | Op.addFiltered en => some (AddFiltered en s)
  | Op.query e pos neg pr => Query e pos neg pr s

/-- Run a sequence of operations from a state. -/
def runOps (s : EngineX) : List Op → Option EngineX
  | [] => some s
  | op :: ops =>
    match applyOp s op with
    | none => none
    | some s1 => runOps s1 ops

/-- A record with the `Date` pointer cleared, for stating that two
classifications agree on everything but the date. -/
def eraseDate (e : Entry) : Entry := {e with Date := none}

/-- Whether a time field differs from its default: the zero `time.Time`
pointer target `fieldTranslate` starts from. -/
def isSetTime : Option GoTime → Bool
  | none => false
  | some t => decide (t ≠ zeroTime)

/-- A fixed stand-in for one call's `time.Now()` value. -/
def testNow : GoTime := ⟨2025, 10, 11, 12, 0⟩

/-- The example line of the specification (also `main_test.go`'s first
static example, with one extra leading field there). -/
def c2line : String :=
  ",Archived,\"7-Eleven Holt\",\"88 Hardwick Crescent\",\"Holt\",\"ACT\",\"01/09/2021 - Wednesday\",2:15pm,3:00pm,\"Monitor\""

/-- The record the example line classifies to: 2:15PM is 14:15 and 3:00PM
is 15:00 on the clock-only (year-0) axis of Go's Kitchen parses. -/
def c2rec : Entry :=
  ⟨"Archived", "7-Eleven Holt", "88 Hardwick Crescent", "Holt", "ACT",
    some ⟨2021, 9, 1, 0, 0⟩, some ⟨0, 1, 1, 14, 15⟩, some ⟨0, 1, 1, 15, 0⟩,
    "Monitor"⟩

/-- A filter constraining only the suburb field. -/
def holtFilter : Entry := {emptyEntry with Suburb := "Holt"}

/-- String append acts as list append on the character data. -/
theorem goData_append (a b : String) : (a ++ b).data = a.data ++ b.data := by
  cases a; cases b; rfl

/-- The lowered `fmt.Sprint` rendering of a record is never empty (it is
brace-delimited), so `check`'s `"nil"`-matches-empty clause can never fire
against a full-record rendering. -/
theorem lower_sprint_ne (r : Entry) : goToLower (sprintEntry r) ≠ "" := by
  intro h
  have hd := congrArg String.data h
  simp only [goToLower, sprintEntry, goData_append] at hd
  simp at hd

/-- With every structured field unset, a single positive free-text query
reduces the evaluation to `check`'s `found` flag on the record rendering. -/
theorem evalEntry_pos_only (q : String) (r : Entry) :
    evalEntry emptyEntry [q] [] r = some (checkB q (sprintEntry r)) := by
  cases hc : checkB q (sprintEntry r) <;>
    simp [evalEntry, emptyEntry, pushCheck, hc]

/-- With every structured field unset, a single negative free-text query
reduces the evaluation to the negation of `checkNot`'s `found` flag. -/
theorem evalEntry_neg_only (q : String) (r : Entry) :
    evalEntry emptyEntry [] [q] r = some (!checkNotFound q (sprintEntry r)) := by
  cases hc : checkNotFound q (sprintEntry r) <;>
    simp [evalEntry, emptyEntry, pushCheck, hc]

/-- A literal-only token sequence matches a prefix exactly when the literal
list is a prefix. -/
theorem matchHere_lit (p : List Char) : ∀ s : List Char,
    matchHere (p.map RTok.lit) s = p.isPrefixOf s := by
  induction p with
  | nil => intro s; cases s <;> rfl
  | cons a p' ih =>
    intro s
    cases s with
    | nil => rfl
    | cons c cs =>
      simp only [List.map, matchHere, List.isPrefixOf, ih]
      by_cases hac : a = c
      · simp [hac]
      · simp [hac]

/-- Unanchored search for a literal-only token sequence is substring
containment. -/
theorem reSearch_lit (p s : List Char) :
    reSearch (p.map RTok.lit) s = listContains s p := by
  induction s with
  | nil =>
    simp only [reSearch, listContains, matchHere_lit]
    cases p <;> rfl
  | cons c cs ih =>
    simp only [reSearch, listContains, matchHere_lit, ih]

/-- A dot-free pattern parses to literal tokens only. -/
theorem parsePat_litOnly (p : List Char) (h : ∀ c ∈ p, c ≠ '.') :
    parsePat p = p.map RTok.lit := by
  induction p with
  | nil => rfl
  | cons a p' ih =>
    simp only [parsePat, List.map] at ih ⊢
    rw [if_neg (h a (List.mem_cons_self a p')), ih]
    intro c hc
    exact h c (List.mem_cons_of_mem a hc)

/-- Reading back the code point of a `Char` built from a valid code
point. -/
theorem charToNat_ofNat (m : Nat) (hv : m.isValidChar) :
    (Char.ofNat m).toNat = m := by
  simp only [Char.ofNat, hv, dif_pos, Char.ofNatAux, Char.toNat]
  rfl

/-- ASCII lowering maps uppercase letters into `a`-`z` and fixes everything
else, so it cannot produce a `.` from a non-dot character. -/
theorem toLower_ne_dot (c : Char) (h : c ≠ '.') : Char.toLower c ≠ '.' := by
  intro he
  simp only [Char.toLower] at he
  by_cases hr : c.toNat ≥ 65 ∧ c.toNat ≤ 90
  · rw [if_pos hr] at he
    have hv : (c.toNat + 32).isValidChar := by
      left
      omega
    have ht := congrArg Char.toNat he
    rw [charToNat_ofNat _ hv] at ht
    have hd : ('.' : Char).toNat = 46 := by decide
    omega
  · rw [if_neg hr] at he
    exact h he

/-- Lowering a metacharacter-free query yields a dot-free pattern. -/
theorem metaFree_lower_dotfree (q : String) (h : metaFree q = true) :
    ∀ c ∈ (goToLower q).data, c ≠ '.' := by
  intro c hc
  simp only [goToLower, List.mem_map] at hc
  obtain ⟨a, ha, rfl⟩ := hc
  apply toLower_ne_dot
  intro hdot
  have := List.all_eq_true.mp h a ha
  rw [hdot] at this
  simp [isMetaChar] at this

/-- On dot-free (in particular metacharacter-free) patterns the modelled
`regexp.Match` is exactly substring containment — as it is for Go. -/
theorem goRegexMatch_contains (p s : String) (h : ∀ c ∈ p.data, c ≠ '.') :
    goRegexMatch p s = goContains s p := by
  unfold goRegexMatch goContains
  rw [parsePat_litOnly p.data h, reSearch_lit]

/-- The all-unset filter evaluates no predicate, so the trace is empty and
every record matches. -/
theorem evalEntry_empty (r : Entry) : evalEntry emptyEntry [] [] r = some true := rfl

/-- The record loop under the all-unset filter retains the whole input. -/
theorem queryLoop_empty (l : List Entry) :
    queryLoop emptyEntry [] [] false l = some l := by
  induction l with
  | nil => rfl
  | cons r rs ih => simp [queryLoop, evalEntry_empty, ih]

/-- The non-date locals computed by the token loop do not depend on the
starting date (`time.Now()`): no cascade rule reads the date. -/
theorem transLoop_snd (comps toks : List String) (i : Nat)
    (d1 d2 : GoTime) (st : TState) :
    (transLoop comps toks i (d1, st)).map Prod.snd =
      (transLoop comps toks i (d2, st)).map Prod.snd := by
  induction toks generalizing i d1 d2 st with
  | nil => rfl
  | cons tok rest ih =>
    simp only [transLoop]
    cases hc : cascade comps i tok st with
    | none => rfl
    | some st1 => exact ih (i + 1) (dateUpd tok d1) (dateUpd tok d2) st1

/-- The pairing invariant on the classifier's two time locals: both still
the zero `time.Time`, or both produced by a Kitchen parse (year 0). -/
def TimeInv (st : TState) : Prop :=
  (st.timeStart = zeroTime ∧ st.timeEnd = zeroTime) ∨
    (st.timeStart.year = 0 ∧ st.timeEnd.year = 0)

/-- A successful Kitchen parse always lands in year 0 (Go defaults absent
layout fields to zero), never in year 1 of the zero `time.Time`. -/
theorem parseKitchen_year (s : String) (t : GoTime)
    (h : parseKitchen s = some t) : t.year = 0 := by
  unfold parseKitchen at h
  cases hk : kitchenHM s.data with
  | none => rw [hk] at h; cases h
  | some hm =>
    rw [hk] at h
    simp at h
    rw [← h]

/-- The location/street rules never write the time locals. -/
theorem locStreet_timeStart (fd : String) (st : TState) :
    (locStreet fd st).timeStart = st.timeStart := by
  cases st
  simp only [locStreet]
  split <;> split <;> rfl

/-- The location/street rules never write the time locals. -/
theorem locStreet_timeEnd (fd : String) (st : TState) :
    (locStreet fd st).timeEnd = st.timeEnd := by
  cases st
  simp only [locStreet]
  split <;> split <;> rfl

/-- `TimeInv` passes through the location/street rules. -/
theorem timeInv_locStreet (fd : String) (st : TState) (h : TimeInv st) :
    TimeInv (locStreet fd st) := by
  unfold TimeInv at h ⊢
  rw [locStreet_timeStart, locStreet_timeEnd]
  exact h

/-- Every cascade rule preserves `TimeInv`: the only writer of the time
locals is the time rule, which commits a parsed pair (both year 0) or
nothing. -/
theorem cascade_timeInv (comps : List String) (i : Nat) (tok : String)
    (st st1 : TState) (h : cascade comps i tok st = some st1)
    (hinv : TimeInv st) : TimeInv st1 := by
  simp only [cascade] at h
  split at h
  · injection h with h1; rw [← h1]; exact hinv
  · split at h
    · injection h with h1; rw [← h1]; exact hinv
    · split at h
      · injection h with h1; rw [← h1]; exact hinv
      · split at h
        · injection h with h1; rw [← h1]; exact hinv
        · split at h
          · injection h with h1; rw [← h1]; exact hinv
          · split at h
            · split at h
              · cases h
              · injection h with h1
                rw [← h1]
                refine timeInv_locStreet _ _ ?_
                cases hk1 : parseKitchen (replaceAmPm (trimQuotes tok)) with
                | none => simp only [hk1]; exact hinv
                | some t1 =>
                  cases hk2 : parseKitchen (replaceAmPm (trimQuotes _)) with
                  | none => simp only [hk1, hk2]; exact hinv
                  | some t2 =>
                    simp only [hk1, hk2]
                    exact Or.inr ⟨parseKitchen_year _ _ hk1, parseKitchen_year _ _ hk2⟩
            · injection h with h1
              rw [← h1]
              exact timeInv_locStreet _ _ hinv

/-- `TimeInv` is an invariant of the whole token loop. -/
theorem transLoop_timeInv (comps toks : List String) (i : Nat)
    (p p1 : GoTime × TState) (h : transLoop comps toks i p = some p1)
    (hinv : TimeInv p.2) : TimeInv p1.2 := by
  induction toks generalizing i p with
  | nil =>
    unfold transLoop at h
    injection h with h1
    rw [← h1]
    exact hinv
  | cons tok rest ih =>
    unfold transLoop at h
    cases hc : cascade comps i tok p.2 with
    | none => rw [hc] at h; cases h
    | some st1 =>
      rw [hc] at h
      exact ih (i + 1) (dateUpd tok p.1, st1) h
        (cascade_timeInv comps i tok p.2 st1 hc hinv)

/-- Every record the query loop retains comes from its input list. -/
theorem queryLoop_mem (e : Entry) (pos neg : List String) (pr : Bool)
    (l l1 : List Entry) (h : queryLoop e pos neg pr l = some l1) :
    ∀ r ∈ l1, r ∈ l := by
  induction l generalizing l1 with
  | nil =>
    injection h with h1
    rw [← h1]
    intro r hr
    cases hr
  | cons a rs ih =>
    unfold queryLoop at h
    cases he : evalEntry e pos neg a with
    | none => rw [he] at h; cases h
    | some b =>
      rw [he] at h
      cases hq : queryLoop e pos neg pr rs with
      | none => rw [hq] at h; cases h
      | some rest =>
        rw [hq] at h
        injection h with h1
        rw [← h1]
        intro r hr
        by_cases hb : (b && !pr) = true
        · rw [if_pos hb] at hr
          cases hr with
          | head => exact List.mem_cons_self a rs
          | tail _ hr2 => exact List.mem_cons_of_mem a (ih rest hq r hr2)
        · rw [if_neg hb] at hr
          exact List.mem_cons_of_mem a (ih rest hq r hr)

/-- The retention invariant: every record in either collection has a
non-empty suburb. -/
def SubInv (s : EngineX) : Prop :=
  (∀ r ∈ s.RawResults, r.Suburb ≠ "") ∧ (∀ r ∈ s.FilteredResults, r.Suburb ≠ "")

/-- Each engine operation preserves the retention invariant: the add
operations guard on the suburb, and `Query` rebuilds the filtered
collection from members of the raw collection. -/
theorem applyOp_subInv (s s1 : EngineX) (op : Op) (h : applyOp s op = some s1)
    (hinv : SubInv s) : SubInv s1 := by
  cases op with
  | addRaw en =>
    injection h with h1
    rw [← h1]
    unfold AddRaw
    by_cases he : en.Suburb = ""
    · rw [if_pos he]; exact hinv
    · rw [if_neg he]
      refine ⟨?_, hinv.2⟩
      intro r hr
      rcases List.mem_append.mp hr with hr1 | hr2
      · exact hinv.1 r hr1
      · rw [List.mem_singleton.mp hr2]; exact he
  | addFiltered en =>
    injection h with h1
    rw [← h1]
    unfold AddFiltered
    by_cases he : en.Suburb = ""
    · rw [if_pos he]; exact hinv
    · rw [if_neg he]
      refine ⟨hinv.1, ?_⟩
      intro r hr
      rcases List.mem_append.mp hr with hr1 | hr2
      · exact hinv.2 r hr1
      · rw [List.mem_singleton.mp hr2]; exact he
  | query e pos neg pr =>
    simp only [applyOp, Query] at h
    by_cases hg : sprintEntry e = sprintEntry s.Filter
    · rw [if_pos hg] at h
      injection h with h1
      rw [← h1]
      exact hinv
    · rw [if_neg hg] at h
      cases hq : queryLoop e pos neg pr s.RawResults with
      | none => rw [hq] at h; cases h
      | some l =>
        rw [hq] at h
        injection h with h1
        rw [← h1]
        exact ⟨hinv.1, fun r hr => hinv.1 r (queryLoop_mem e pos neg pr _ l hq r hr)⟩

/-- The retention invariant is preserved along any operation sequence. -/
theorem runOps_subInv (ops : List Op) (s s1 : EngineX)
    (h : runOps s ops = some s1) (hinv : SubInv s) : SubInv s1 := by
  induction ops generalizing s with
  | nil => injection h with h1; rw [← h1]; exact hinv
  | cons op rest ih =>
    unfold runOps at h
    cases ha : applyOp s op with
    | none => rw [ha] at h; cases h
    | some s2 =>
      rw [ha] at h
      exact ih s2 h (applyOp_subInv s s2 op ha hinv)

/-- The operation sequence used to exhibit the retention invariant. -/
def c6ops : List Op :=
  [Op.addRaw c2rec, Op.addFiltered c2rec, Op.query holtFilter [] [] false]

/-- Claim C1: the spec requires a time-of-day opener with no follower to be
a soft parse miss, but the code reads `components[i+1]` with no bounds
check, so classifying a 9-token line whose last token matches the
time-of-day pattern is a runtime panic (index out of range, modelled
`none`), not a completed classification — whatever `time.Now()` returns. -/
theorem c1_time_opener_last_token_panics (now : GoTime) :
    fieldTranslate "a,b,c,d,e,f,g,h,2:15pm" now = none := rfl

/-- Claim C2: the specification's example line classifies (for any clock
value, the date token overrides the `time.Now()` default) to
status Archived, suburb Holt, state ACT, date 1 September 2021, arrival
2:15PM, departure 3:00PM, contact Monitor; the record passes a filter with
only suburb "Holt" set and fails one with only suburb "Woden" set. -/
theorem c2_example_line_classifies_and_filters (now : GoTime) :
    fieldTranslate c2line now = some c2rec ∧
      evalEntry holtFilter [] [] c2rec = some true ∧
      evalEntry {emptyEntry with Suburb := "Woden"} [] [] c2rec = some false :=
  ⟨rfl, by decide, by decide⟩

/-- Claim C3 counterexample: two applications of the classifier to the same
dateless nine-token line, with the clock (`time.Now()`) reading different
values, give different records — the date field keeps the clock value, so
classification is not a function of the line alone. -/
theorem c3_clock_changes_record_counterexample :
    fieldTranslate "a,b,c,d,e,f,g,h,i" ⟨2021, 1, 1, 0, 0⟩ ≠
      fieldTranslate "a,b,c,d,e,f,g,h,i" ⟨2022, 2, 2, 0, 0⟩ := by decide

/-- Claim C3 (amended): the classifier is deterministic in every field
except `date`: for one line and any two clock values, the two results are
equal once the date field is erased (and they panic together). -/
theorem c3_deterministic_except_date (line : String) (n1 n2 : GoTime) :
    (fieldTranslate line n1).map eraseDate =
      (fieldTranslate line n2).map eraseDate := by
  unfold fieldTranslate
  by_cases h : (goSplit ',' line).length < 9
  · simp [h]
  · simp only [h, if_false]
    have hs := transLoop_snd (goSplit ',' line) (goSplit ',' line) 0 n1 n2
      ⟨"", "", "", zeroTime, zeroTime, "", "", ""⟩
    cases h1 : transLoop (goSplit ',' line) (goSplit ',' line) 0
        (n1, ⟨"", "", "", zeroTime, zeroTime, "", "", ""⟩) with
    | none =>
      rw [h1] at hs
      cases h2 : transLoop (goSplit ',' line) (goSplit ',' line) 0
          (n2, ⟨"", "", "", zeroTime, zeroTime, "", "", ""⟩) with
      | none => rfl
      | some q => rw [h2] at hs; cases hs
    | some p =>
      rw [h1] at hs
      cases h2 : transLoop (goSplit ',' line) (goSplit ',' line) 0
          (n2, ⟨"", "", "", zeroTime, zeroTime, "", "", ""⟩) with
      | none => rw [h2] at hs; cases hs
      | some q =>
        rw [h2] at hs
        simp at hs
        simp [eraseDate, hs]

/-- Claim C4 counterexample: for the query `"."` (a regex metacharacter)
and the empty record, the positive evaluation retains (the regex arm of
`check` matches any character) and the negative evaluation ALSO retains
(`checkNot` demands containment AND regex match before rejecting), so the
claimed equivalence fails. -/
theorem c4_dot_query_not_complement_counterexample :
    ¬ ((evalEntry emptyEntry [] ["."] emptyEntry = some true) ↔
        (evalEntry emptyEntry ["."] [] emptyEntry = some false)) := by decide

/-- Claim C4 (amended): for every record and every query string free of
RE2 metacharacters — where Go's `regexp.Match` is plain substring
containment, so the embedding is faithful — the complement law holds: with
all other filter fields unset, a negative query `[q]` retains a record iff
the positive query `[q]` rejects it.  For metacharacter queries (`"."`,
`"x*"`, …) the law fails in the program, `check` ORing containment with
regex match where `checkNot` ANDs them. -/
theorem c4_negation_complement_for_plain_queries (r : Entry) (q : String)
    (h : metaFree q = true) :
    (evalEntry emptyEntry [] [q] r = some true ↔
      evalEntry emptyEntry [q] [] r = some false) := by
  rw [evalEntry_pos_only, evalEntry_neg_only]
  have hre : goRegexMatch (goToLower q) (goToLower (sprintEntry r)) =
      goContains (goToLower (sprintEntry r)) (goToLower q) :=
    goRegexMatch_contains _ _ (metaFree_lower_dotfree q h)
  have hne := lower_sprint_ne r
  simp [checkB, checkNotFound, hre, hne]

/-- Witness for C4: the metacharacter-free query `"woden"` against the
example record (positive rejects, negative retains). -/
theorem c4_negation_complement_witness :
    metaFree "woden" = true ∧
      (evalEntry emptyEntry [] ["woden"] c2rec = some true ↔
        evalEntry emptyEntry ["woden"] [] c2rec = some false) :=
  ⟨by decide, c4_negation_complement_for_plain_queries c2rec "woden" (by decide)⟩

/-- Claim C5: a line splitting into fewer than nine comma-separated tokens
classifies softly to the zero record (empty suburb, nil dates), and that
record is a no-op for both add operations, so it is never retained. -/
theorem c5_short_line_empty_record (line : String) (now : GoTime) (s : EngineX)
    (h : (goSplit ',' line).length < 9) :
    fieldTranslate line now = some emptyEntry ∧
      AddRaw emptyEntry s = s ∧ AddFiltered emptyEntry s = s := by
  refine ⟨?_, rfl, rfl⟩
  simp only [fieldTranslate]
  rw [if_pos h]

/-- Witness for C5: the two-token line `"a,b"`. -/
theorem c5_short_line_empty_record_witness :
    (goSplit ',' "a,b").length < 9 ∧
      (fieldTranslate "a,b" testNow = some emptyEntry ∧
        AddRaw emptyEntry initEngine = initEngine ∧
        AddFiltered emptyEntry initEngine = initEngine) :=
  ⟨by decide, c5_short_line_empty_record "a,b" testNow initEngine (by decide)⟩

/-- Claim C6: starting from a fresh engine, after any sequence of
`AddRaw`/`AddFiltered`/`Query` operations every record in the raw and in
the filtered collection has a non-empty suburb. -/
theorem c6_retained_records_have_nonempty_suburb (ops : List Op) (s : EngineX)
    (h : runOps initEngine ops = some s) :
    (∀ r ∈ s.RawResults, r.Suburb ≠ "") ∧
      (∀ r ∈ s.FilteredResults, r.Suburb ≠ "") :=
  runOps_subInv ops initEngine s h
    ⟨fun r hr => absurd hr (List.not_mem_nil r),
      fun r hr => absurd hr (List.not_mem_nil r)⟩

/-- Witness for C6: a concrete add/add/query sequence ending in a state
whose collections both hold the example record. -/
theorem c6_retained_records_witness :
    (∀ r ∈ (⟨[c2rec], [c2rec], holtFilter⟩ : EngineX).RawResults, r.Suburb ≠ "") ∧
      (∀ r ∈ (⟨[c2rec], [c2rec], holtFilter⟩ : EngineX).FilteredResults, r.Suburb ≠ "") :=
  c6_retained_records_have_nonempty_suburb c6ops ⟨[c2rec], [c2rec], holtFilter⟩
    (by decide)

/-- Claim C7: whenever classification completes, the arrival and departure
times are set as a pair or not at all: either both still the zero
`time.Time` default, or both carry parsed (year-0) clock values — never
exactly one. -/
theorem c7_time_pair_both_or_neither (line : String) (now : GoTime) (e : Entry)
    (h : fieldTranslate line now = some e) :
    isSetTime e.ArrivalTime = isSetTime e.DepartureTime := by
  unfold fieldTranslate at h
  by_cases hl : (goSplit ',' line).length < 9
  · rw [if_pos hl] at h
    injection h with h1
    rw [← h1]
    rfl
  · rw [if_neg hl] at h
    cases ht : transLoop (goSplit ',' line) (goSplit ',' line) 0
        (now, ⟨"", "", "", zeroTime, zeroTime, "", "", ""⟩) with
    | none => rw [ht] at h; cases h
    | some p =>
      rw [ht] at h
      injection h with h1
      have hinv := transLoop_timeInv (goSplit ',' line) (goSplit ',' line) 0
        _ p ht (Or.inl ⟨rfl, rfl⟩)
      rw [← h1]
      rcases hinv with ⟨ha, hb⟩ | ⟨ha, hb⟩
      · simp [isSetTime, ha, hb]
      · simp only [isSetTime]
        have hza : p.2.timeStart ≠ zeroTime := by
          intro hq; rw [hq] at ha; cases ha
        have hzb : p.2.timeEnd ≠ zeroTime := by
          intro hq; rw [hq] at hb; cases hb
        simp [hza, hzb]

/-- Witness for C7: the example line, whose record carries both times. -/
theorem c7_time_pair_witness :
    fieldTranslate c2line testNow = some c2rec ∧
      isSetTime c2rec.ArrivalTime = isSetTime c2rec.DepartureTime :=
  ⟨by decide, c7_time_pair_both_or_neither c2line testNow c2rec (by decide)⟩

/-- Claim C8: the all-unset filter evaluates no predicate and accepts every
record; applying it (in collection mode) to an engine whose stored filter
renders differently rebuilds the filtered collection as the whole raw
collection. -/
theorem c8_empty_filter_retains_everything :
    (∀ r : Entry, evalEntry emptyEntry [] [] r = some true) ∧
      ∀ s : EngineX, sprintEntry emptyEntry ≠ sprintEntry s.Filter →
        Query emptyEntry [] [] false s =
          some ⟨s.RawResults, s.RawResults, emptyEntry⟩ := by
  constructor
  · exact evalEntry_empty
  · intro s h
    simp [Query, h, queryLoop_empty]

/-- Witness for C8: the example record, and an engine holding it whose
stored filter is not the empty one. -/
theorem c8_empty_filter_witness :
    evalEntry emptyEntry [] [] c2rec = some true ∧
      (sprintEntry emptyEntry ≠ sprintEntry (⟨[c2rec], [], holtFilter⟩ : EngineX).Filter ∧
        Query emptyEntry [] [] false ⟨[c2rec], [], holtFilter⟩ =
          some ⟨[c2rec], [c2rec], emptyEntry⟩) :=
  ⟨c8_empty_filter_retains_everything.1 c2rec,
    by decide,
    c8_empty_filter_retains_everything.2 ⟨[c2rec], [], holtFilter⟩ (by decide)⟩

/-- Claim C9: after any successful `Query`, the stored filter renders
identically to the applied one, so immediately re-applying the same filter
takes the no-op guard: the state — in particular the filtered collection —
is returned untouched and no record is re-evaluated. -/
theorem c9_repeated_filter_is_noop (e : Entry) (pos neg : List String)
    (pr : Bool) (s s1 : EngineX) (h : Query e pos neg pr s = some s1) :
    sprintEntry e = sprintEntry s1.Filter ∧ Query e pos neg pr s1 = some s1 := by
  unfold Query at h ⊢
  by_cases hg : sprintEntry e = sprintEntry s.Filter
  · rw [if_pos hg] at h
    have hs : s = s1 := by injection h
    subst hs
    exact ⟨hg, by rw [if_pos hg]⟩
  · rw [if_neg hg] at h
    cases hq : queryLoop e pos neg pr s.RawResults with
    | none => rw [hq] at h; cases h
    | some l =>
      rw [hq] at h
      have hs : (⟨s.RawResults, l, e⟩ : EngineX) = s1 := by injection h
      subst hs
      exact ⟨rfl, by rw [if_pos rfl]⟩

/-- Witness for C9: the suburb filter applied to a fresh engine, then
re-applied to the resulting state. -/
theorem c9_repeated_filter_witness :
    Query holtFilter [] [] false initEngine = some ⟨[], [], holtFilter⟩ ∧
      (sprintEntry holtFilter = sprintEntry (⟨[], [], holtFilter⟩ : EngineX).Filter ∧
        Query holtFilter [] [] false ⟨[], [], holtFilter⟩ = some ⟨[], [], holtFilter⟩) :=
  ⟨by decide,
    c9_repeated_filter_is_noop holtFilter [] [] false initEngine
      ⟨[], [], holtFilter⟩ (by decide)⟩

/-- Claim C10: the date comparison renders both dates as unpadded
day-month-year strings and tests substring containment, so the distinct
dates 1 September 2021 (`"1-9-2021"`) and 11 September 2021 (`"11-9-2021"`)
cross-match: a filter with only the date set to the former retains a record
dated the latter. -/
theorem c10_date_filter_substring_overmatch :
    (⟨2021, 9, 1, 0, 0⟩ : GoTime) ≠ ⟨2021, 9, 11, 0, 0⟩ ∧
      dmyString ⟨2021, 9, 1, 0, 0⟩ = "1-9-2021" ∧
      dmyString ⟨2021, 9, 11, 0, 0⟩ = "11-9-2021" ∧
      evalEntry {emptyEntry with Date := some ⟨2021, 9, 1, 0, 0⟩} [] []
        {emptyEntry with Suburb := "Holt", Date := some ⟨2021, 9, 11, 0, 0⟩} =
          some true := by decide

end CovidCheck
